import Mathlib

/-!
# fuzzbuzz: round-trip fuzz harness for the go-ethereum ABI codec

A shallow embedding of `src/main.go`.

* The codec (`abi.JSON`, `abi.Unpack`, `abi.Pack`, `abi.NewType`), the random
  generator (`math/rand`) and the libraries `reflect.DeepEqual` and `gofuzz`
  are collaborators outside the repository: they are parameters
  (`Codec`, `Rand`, `Lib`).
* A Go `panic` is the result `Run.fatal`; a normal return is `Run.done`.
* Every function returns, next to its result, the calls it made to the
  collaborators (`Event`), in order, so that statements about what is handed
  to the codec, or about a call not being made, can be written down.
-/

set_option maxRecDepth 100000

namespace Fuzzbuzz

/-- A byte. -/
abbrev Byte := Fin 256

/-- A Go `[]byte`. -/
abbrev Bytes := List Byte

/-- A Go slice: `nil`, or a (possibly zero-length) allocated slice. -/
inductive Slice (α : Type) where
  | nil : Slice α
  | make (elems : List α) : Slice α

/-- `len(s)`. -/
def Slice.len {α : Type} : Slice α → Nat
  | .nil => 0
  | .make elems => elems.length

/-- The elements of a slice, in order (none for `nil`). -/
def Slice.elems {α : Type} : Slice α → List α
  | .nil => []
  | .make elems => elems

/-- `s != nil`. -/
def Slice.notNil {α : Type} : Slice α → Bool
  | .nil => false
  | .make _ => true

/-- A Go `interface{}` value, by dynamic type.
`byteSlice` is a `[]byte`; `nilIfaceSlice` and `ifaceSlice` are a `[]interface{}`
(nil, and allocated); `reflectValue t` is the `reflect.Value` that
`reflect.New(t).Elem()` yields, the zero value of the Go type `t`;
`datum` is any other value, given by its Go type and a payload. -/
inductive GoVal where
  | byteSlice (b : Bytes) : GoVal
  | nilIfaceSlice : GoVal
  | ifaceSlice (elems : List GoVal) : GoVal
  | reflectValue (goType : String) : GoVal
  | datum (goType : String) (payload : Bytes) : GoVal

/-- Boxing a `[]interface{}` into an `interface{}`. -/
def GoVal.ofSlice : Slice GoVal → GoVal
  | .nil => .nilIfaceSlice
  | .make elems => .ifaceSlice elems

/-- The struct `args` of main.go. -/
structure args where
  name : String
  typ : String
deriving DecidableEq

/-- What an `abi.Type` exposes to the harness: `GetType()`. -/
structure AbiType where
  getType : String

/-- The external codec (go-ethereum `accounts/abi`), a black box.
`unpack abi method data` is `abi.Unpack(ptr, method, data)` for `ptr` pointing
at a fresh nil `[]interface{}`: an error, or the slice left behind the pointer.
`pack abi method args` is `abi.Pack(method, args...)` with the variadic
argument list `args`. -/
structure Codec where
  ABI : Type
  json : String → Except String ABI
  unpack : ABI → String → Bytes → Except String (Slice GoVal)
  pack : ABI → String → List GoVal → Except String Bytes
  newType : String → Except String AbiType

/-- The libraries `reflect` and `gofuzz`.
`deepEqual` is `reflect.DeepEqual` on two `[]interface{}`.
`fuzz data elems` is `fuzz.NewFromGoFuzz(data).Fuzz(&structs)` as the caller
of `fillStruct` sees it: a panic, or the elements of the caller's slice
afterwards. -/
structure Lib where
  deepEqual : Slice GoVal → Slice GoVal → Bool
  fuzz : Bytes → List GoVal → Except String (List GoVal)

/-- The generator `math/rand`: `newSource seed` is
`rand.New(rand.NewSource(seed))`, `int31n g n` is `g.Int31n(n)` with the
generator afterwards. `Int31n(n)` lies in `[0, n)`. -/
structure Rand where
  Gen : Type
  newSource : Int → Gen
  int31n : Gen → Nat → Nat × Gen
  int31n_lt : ∀ g n, 0 < n → (int31n g n).1 < n

/-- The value a `panic` carries. -/
inductive PanicValue where
  | err (e : String) : PanicValue
  | bytesNotEqual (input output : Bytes) : PanicValue
  | valuesNotEqual (input out : Slice GoVal) : PanicValue

/-- How a call ends: a normal return, or a panic (fatal abort). -/
inductive Run (α : Type) where
  | done (a : α) : Run α
  | fatal (p : PanicValue) : Run α

/-- A call to a collaborator, or the driver building a candidate. -/
inductive Event where
  | candidate (name : String) (stateMutability payable : Option String) (arg : List args) : Event
  | unpack (method : String) (data : Bytes) : Event
  | pack (method : String) (packArgs : List GoVal) : Event
  | fuzz (data : Bytes) (structs : List GoVal) : Event

/-- A call's events, in order, and how it ended. -/
structure Outcome (α : Type) where
  trace : List Event
  result : Run α

/-- Puts the events `pre` in front of a call's events. -/
def Outcome.after {α : Type} (pre : List Event) (o : Outcome α) : Outcome α :=
  ⟨pre ++ o.trace, o.result⟩

/-- The function `unpackPack` (main.go 14-27). `inputType` only gives the static type
`[]interface{}` of the fresh destination; `abi.Pack(method, input)` passes the
`[]byte` input as the single variadic argument. -/
def unpackPack (c : Codec) (abi : c.ABI) (method : String) (_inputType : Slice GoVal)
    (input : Bytes) : Outcome Bool :=
  match c.unpack abi method input with
  | .ok _ =>
    match c.pack abi method [GoVal.byteSlice input] with
    | .error err =>
      ⟨[Event.unpack method input, Event.pack method [GoVal.byteSlice input]],
        .fatal (.err err)⟩
    | .ok output =>
      if ¬ input = output then
        ⟨[Event.unpack method input, Event.pack method [GoVal.byteSlice input]],
          .fatal (.bytesNotEqual input output)⟩
      else
        ⟨[Event.unpack method input, Event.pack method [GoVal.byteSlice input]],
          .done true⟩
  | .error _ => ⟨[Event.unpack method input], .done false⟩

/-- The function `packUnpack` (main.go 29-43). `abi.Pack(method, input)` passes the
`[]interface{}` as the single variadic argument. -/
def packUnpack (c : Codec) (L : Lib) (abi : c.ABI) (method : String)
    (input : Slice GoVal) : Outcome Bool :=
  match c.pack abi method [GoVal.ofSlice input] with
  | .ok packed =>
    match c.unpack abi method packed with
    | .error err =>
      ⟨[Event.pack method [GoVal.ofSlice input], Event.unpack method packed],
        .fatal (.err err)⟩
    | .ok out =>
      if ¬ L.deepEqual input out = true then
        ⟨[Event.pack method [GoVal.ofSlice input], Event.unpack method packed],
          .fatal (.valuesNotEqual input out)⟩
      else
        ⟨[Event.pack method [GoVal.ofSlice input], Event.unpack method packed],
          .done true⟩
  | .error _ => ⟨[Event.pack method [GoVal.ofSlice input]], .done false⟩

/-- One of the two `for i, inp := range inputs` loops of `createABI`: appends each
argument's name and type to `sig`, and a comma unless it is the last. `n` is
`len(inputs)`, `i` the index of the head of the list. -/
def appendInputs (n : Nat) : Nat → List args → String → String
  | _, [], sig => sig
  | i, inp :: rest, sig =>
    let sig := sig ++ ("\"name\" : \"" ++ inp.name ++ "\", \"type\" : \"" ++ inp.typ ++ "\" ")
    let sig := if i + 1 < n then sig ++ "," else sig
    appendInputs n (i + 1) rest sig

/-- The text `sig` that `createABI` renders (main.go 51-76). -/
def createABISig (name : String) (stateMutability payable : Option String)
    (inputs : List args) : String :=
  let sig := "[\x7b \"type\" : \"function\", \"name\" : \"" ++ name ++ "\" "
  let sig := match stateMutability with
    | some m => sig ++ (", \"stateMutability\": \"" ++ m ++ "\" ")
    | none => sig
  let sig := match payable with
    | some p => sig ++ (", \"payable\": " ++ p ++ " ")
    | none => sig
  let sig :=
    if inputs.length > 0 then
      let sig := sig ++ ", \"inputs\" : [ \x7b"
      let sig := appendInputs inputs.length 0 inputs sig
      let sig := sig ++ "\x7d ]"
      let sig := sig ++ ", \"outputs\" : [ \x7b"
      let sig := appendInputs inputs.length 0 inputs sig
      sig ++ "\x7d ]"
    else sig
  sig ++ "\x7d]"

/-- The function `createABI` (main.go 50-83): renders the text and hands it to the parser. -/
def createABI (c : Codec) (name : String) (stateMutability payable : Option String)
    (inputs : List args) : Except String c.ABI :=
  c.json (createABISig name stateMutability payable inputs)

/-- The function `fillStruct` (main.go 85-89). Returns the caller's slice afterwards. -/
def fillStruct (L : Lib) (structs : Slice GoVal) (data : Bytes) : Outcome (Slice GoVal) :=
  if structs.notNil = true ∧ data.length ≠ 0 then
    match L.fuzz data structs.elems with
    | .error e => ⟨[Event.fuzz data structs.elems], .fatal (.err e)⟩
    | .ok elems => ⟨[Event.fuzz data structs.elems], .done (.make elems)⟩
  else ⟨[], .done structs⟩

/-- The loop of `createStructs`: one placeholder per argument, a panic at the first
type string `abi.NewType` rejects. -/
def createStructsLoop (c : Codec) : List args → Run (List GoVal)
  | [] => .done []
  | arg :: rest =>
    match c.newType arg.typ with
    | .error err => .fatal (.err err)
    | .ok t =>
      match createStructsLoop c rest with
      | .fatal p => .fatal p
      | .done structs => .done (GoVal.reflectValue t.getType :: structs)

/-- The function `createStructs` (main.go 91-101): the slice is made with `make`, so it
is never nil. -/
def createStructs (c : Codec) (arg : List args) : Run (Slice GoVal) :=
  match createStructsLoop c arg with
  | .fatal p => .fatal p
  | .done structs => .done (.make structs)

/-- The catalog `names`. -/
def names : List String := ["", "_name", "name", "NAME", "name_", "__", "_name_", "n"]

/-- The catalog `stateMut`. -/
def stateMut : List String := ["", "pure", "view", "payable"]

/-- The catalog `stateMutabilites`: `nil` and a pointer to each entry of `stateMut`. -/
def stateMutabilites : List (Option String) := none :: stateMut.map some

/-- The catalog `pays`. -/
def pays : List String := ["true", "false"]

/-- The catalog `payables`: `nil` and a pointer to each entry of `pays`. -/
def payables : List (Option String) := none :: pays.map some

/-- The catalog `varNames`. -/
def varNames : List String := ["a", "b", "c", "d", "e", "f", "g"] ++ names

/-- The catalog `varTypes`. -/
def varTypes : List String := ["bool", "address", "bytes", "string",
  "uint", "int", "uint8", "int8", "uint8", "int8", "uint16", "int16",
  "uint24", "int24", "uint32", "int32", "uint40", "int40", "uint48", "int48", "uint56", "int56",
  "uint64", "int64", "uint72", "int72", "uint80", "int80", "uint88", "int88", "uint96", "int96",
  "uint104", "int104", "uint112", "int112", "uint120", "int120", "uint128", "int128", "uint136", "int136",
  "uint144", "int144", "uint152", "int152", "uint160", "int160", "uint168", "int168", "uint176", "int176",
  "uint184", "int184", "uint192", "int192", "uint200", "int200", "uint208", "int208", "uint216", "int216",
  "uint224", "int224", "uint232", "int232", "uint240", "int240", "uint248", "int248", "uint256", "int256",
  "bytes1", "bytes2", "bytes3", "bytes4", "bytes5", "bytes6", "bytes7", "bytes8", "bytes9", "bytes10", "bytes11",
  "bytes12", "bytes13", "bytes14", "bytes15", "bytes16", "bytes17", "bytes18", "bytes19", "bytes20", "bytes21",
  "bytes22", "bytes23", "bytes24", "bytes25", "bytes26", "bytes27", "bytes28", "bytes29", "bytes30", "bytes31",
  "byte32", "byte"]

/-- The body of the argument loop (main.go 134-145): draws a name and a base type, rolls
for the dynamic-array suffix and, in the `else if`, for the fixed-array suffix. Returns
the argument and the generator afterwards. By `Rand.int31n_lt` the indices are in range. -/
def genArg (R : Rand) (rnd : R.Gen) : args × R.Gen :=
  let n := R.int31n rnd varNames.length
  let argName := varNames.getD n.1 ""
  let t := R.int31n n.2 varTypes.length
  let argTyp := varTypes.getD t.1 ""
  let d := R.int31n t.2 10
  if d.1 = 0 then
    (⟨argName, argTyp ++ "[]"⟩, d.2)
  else
    let f := R.int31n d.2 10
    if f.1 = 0 then
      let arrayArgs := R.int31n f.2 30
      (⟨argName, argTyp ++ ("[" ++ toString arrayArgs.1 ++ "]")⟩, arrayArgs.2)
    else
      (⟨argName, argTyp⟩, f.2)

/-- The argument loop `for i := ...; i > 0; i--` (main.go 133-146) from the counter `i`
on: `arg` is the list built so far. -/
def genArgs (R : Rand) : Nat → R.Gen → List args → List args × R.Gen
  | 0, rnd, arg => (arg, rnd)
  | i + 1, rnd, arg =>
    let a := genArg R rnd
    genArgs R i a.2 (arg ++ [a.1])

/-- The signature one cell builds (main.go 132-146): `rnd.Int31n(5)` arguments. -/
def genCandidate (R : Rand) (rnd : R.Gen) : List args × R.Gen :=
  let i := R.int31n rnd 5
  genArgs R i.1 i.2 []

/-- What one cell contributes: skipped by `continue`, or the results `b` of `unpackPack`
and `c` of `packUnpack`. -/
inductive Verdict where
  | skipped : Verdict
  | ran (b c : Bool) : Verdict

/-- The rest of the loop body once the candidate is built (main.go 147-155). -/
def runCandidate (c : Codec) (L : Lib) (input : Bytes) (name : String)
    (stateMut payable : Option String) (arg : List args) : Outcome Verdict :=
  match createABI c name stateMut payable arg with
  | .error _ => ⟨[], .done .skipped⟩
  | .ok abi =>
    match createStructs c arg with
    | .fatal p => ⟨[], .fatal p⟩
    | .done structs =>
      let up := unpackPack c abi name structs input
      match up.result with
      | .fatal p => ⟨up.trace, .fatal p⟩
      | .done b =>
        let fs := fillStruct L structs input
        match fs.result with
        | .fatal p => ⟨up.trace ++ fs.trace, .fatal p⟩
        | .done structs =>
          let pu := packUnpack c L abi name structs
          match pu.result with
          | .fatal p => ⟨up.trace ++ fs.trace ++ pu.trace, .fatal p⟩
          | .done cc => ⟨up.trace ++ fs.trace ++ pu.trace, .done (.ran b cc)⟩

/-- A cell of the cross product: name, stateMutability, payable. -/
abbrev Cell := String × Option String × Option String

/-- The cells in the order the three nested loops visit them. -/
def cells : List Cell :=
  names.flatMap fun name => stateMutabilites.flatMap fun sm => payables.map fun p => (name, sm, p)

/-- The three nested loops (main.go 129-158) over the cells still to visit, from the
generator `rnd` and the flag `good`. -/
def runCells (c : Codec) (L : Lib) (R : Rand) (input : Bytes) :
    List Cell → R.Gen → Bool → Outcome Bool
  | [], _, good => ⟨[], .done good⟩
  | (name, sm, payable) :: rest, rnd, good =>
    let g := genCandidate R rnd
    let o := runCandidate c L input name sm payable g.1
    match o.result with
    | .fatal p => ⟨Event.candidate name sm payable g.1 :: o.trace, .fatal p⟩
    | .done .skipped =>
      (runCells c L R input rest g.2 good).after (Event.candidate name sm payable g.1 :: o.trace)
    | .done (.ran b cc) =>
      (runCells c L R input rest g.2 (good || b || cc)).after
        (Event.candidate name sm payable g.1 :: o.trace)

/-- The seed of the generator (main.go 125-128). -/
def seed (input : Bytes) : Int :=
  if h : input.length > 0 then Int.ofNat (input[0]).val else 123456

/-- The function `runFuzzer` (main.go 103-163). -/
def runFuzzer (c : Codec) (L : Lib) (R : Rand) (input : Bytes) : Outcome Int :=
  let rnd := R.newSource 123456
  let rnd := if h : input.length > 0 then R.newSource (Int.ofNat (input[0]).val) else rnd
  let o := runCells c L R input cells rnd false
  match o.result with
  | .fatal p => ⟨o.trace, .fatal p⟩
  | .done good => ⟨o.trace, .done (if good then 1 else 0)⟩

/-- The function `Fuzz` (main.go 165-167). -/
def Fuzz (c : Codec) (L : Lib) (R : Rand) (input : Bytes) : Outcome Int :=
  runFuzzer c L R input

/-- The seed-determined sequence of candidates: what the nested loops build from the
generator `rnd` when nothing stops them. -/
def candidates (R : Rand) : List Cell → R.Gen → List (Cell × List args)
  | [], _ => []
  | cell :: rest, rnd =>
    (cell, (genCandidate R rnd).1) :: candidates R rest (genCandidate R rnd).2

/-- The candidates a run built, read off its events. -/
def candidatesBuilt : List Event → List (Cell × List args)
  | [] => []
  | Event.candidate name sm payable arg :: rest =>
    ((name, sm, payable), arg) :: candidatesBuilt rest
  | _ :: rest => candidatesBuilt rest

/-- Whether a candidate gives a conclusive round trip: it ran, and `b || c`. -/
def conclusive (c : Codec) (L : Lib) (input : Bytes) (x : Cell × List args) : Bool :=
  match (runCandidate c L input x.1.1 x.1.2.1 x.1.2.2 x.2).result with
  | .done (.ran b cc) => b || cc
  | _ => false

/-- Number of `[` in a type string: one per array suffix. -/
def brackets (s : String) : Nat := s.toList.count '['

/-! ## Test doubles for the collaborators -/

/-- A generator that replays a script: `Int31n(n)` is the next scripted number modulo `n`
(0 once the script is used up). -/
def scriptRand (script : Int → List Nat) : Rand where
  Gen := List Nat
  newSource := script
  int31n := fun g n =>
    match g with
    | [] => (0, [])
    | x :: xs => (x % n, xs)
  int31n_lt := by
    intro g n hn
    cases g with
    | nil => exact hn
    | cons x xs => exact Nat.mod_lt x hn

/-- The type string that follows the last `"type" : "` of a text: with the duplicate
keys `createABI` renders, the type a JSON decoder keeps. -/
def lastType : List Char → String → String
  | [], acc => acc
  | ch :: rest, acc =>
    if "\"type\" : \"".toList.isPrefixOf (ch :: rest) then
      lastType rest (String.mk ((rest.drop 9).takeWhile (fun x => x ≠ '"')))
    else lastType rest acc

/-- A codec double: `typeOk` says which type strings `NewType` accepts, the parser accepts a
text when the last type it reads is `function` or accepted, `decode` and `encode` are
`Unpack` and `Pack`. -/
def stubCodec (typeOk : String → Bool) (decode : Bytes → Except String (Slice GoVal))
    (encode : List GoVal → Except String Bytes) : Codec where
  ABI := String
  json := fun text =>
    if lastType text.toList "" = "function" ∨ typeOk (lastType text.toList "") = true then .ok text
    else .error "unsupported arg type"
  unpack := fun _ _ data => decode data
  pack := fun _ _ packArgs => encode packArgs
  newType := fun t => if typeOk t = true then .ok ⟨t⟩ else .error ("unsupported arg type: " ++ t)

/-- A library double: `DeepEqual` compares the boxed lengths only, the fuzzer leaves the
elements as they are. -/
def stubLib : Lib where
  deepEqual := fun a b => a.notNil == b.notNil && a.len == b.len
  fuzz := fun _ elems => .ok elems

/-- Decoder double for one `uint8` argument: a 32-byte word, zero but for its last byte. -/
def decodeUint8 (data : Bytes) : Except String (Slice GoVal) :=
  if data.length = 32 ∧ data.take 31 = List.replicate 31 0 then
    .ok (.make [GoVal.datum "uint8" (data.drop 31)])
  else .error "abi: improperly formatted output"

/-- Encoder double for one `uint8` argument, the inverse of `decodeUint8`. -/
def encodeUint8 : List GoVal → Except String Bytes
  | [GoVal.datum _ [x]] => .ok (List.replicate 31 0 ++ [x])
  | _ => .error "abi: cannot use argument as type uint8"

/-- Decoder double: a payload of even length decodes to the empty value set. -/
def decodeEven (data : Bytes) : Except String (Slice GoVal) :=
  if data.length % 2 = 0 then .ok (.make []) else .error "abi: improperly formatted output"

/-- Encoder double with a defect: the empty value set and any byte buffer are encoded as the
empty payload; anything else is rejected. -/
def encodeLossy : List GoVal → Except String Bytes
  | [GoVal.ifaceSlice []] => .ok []
  | [GoVal.byteSlice _] => .ok []
  | _ => .error "abi: argument count mismatch"

/-- Encoder double with a defect the other way: a byte buffer is echoed, any other argument
list is encoded as the empty payload. -/
def encodeEcho : List GoVal → Except String Bytes
  | [GoVal.byteSlice b] => .ok b
  | _ => .ok []

/-- The generator script of the examples: the first cell gets the two arguments `a bool`
and `g uint8[]`, the second the argument `d int8[5]`, every later cell none. -/
def exampleScript : Int → List Nat := fun _ => [2, 0, 0, 1, 1, 6, 6, 0, 1, 3, 7, 1, 0, 5]

/-- The generator script that makes the first cell `a byte32, b bool`. -/
def byte32Script : Int → List Nat := fun _ => [2, 0, 103, 1, 1, 1, 0, 1, 1]

/-! ## Lemmas on the generator -/

theorem getD_mem_of_lt (l : List String) (i : Nat) (d : String) (h : i < l.length) :
    l.getD i d ∈ l := by
  rw [List.getD_eq_getElem l d h]
  exact List.getElem_mem h

theorem brackets_append (a b : String) : brackets (a ++ b) = brackets a + brackets b := by
  simp [brackets, String.toList, String.data_append, List.count_append]

theorem brackets_varTypes : ∀ b ∈ varTypes, brackets b = 0 := by
  decide

theorem brackets_fixed : ∀ k, k < 30 → brackets ("[" ++ toString k ++ "]") = 1 := by
  decide

/-- The argument `genArg` builds, by the outcome of the rolls. -/
theorem genArg_cases (R : Rand) (rnd : R.Gen) :
    ((R.int31n (R.int31n (R.int31n rnd varNames.length).2 varTypes.length).2 10).1 = 0 →
      genArg R rnd =
        (⟨varNames.getD (R.int31n rnd varNames.length).1 "",
          varTypes.getD (R.int31n (R.int31n rnd varNames.length).2 varTypes.length).1 "" ++ "[]"⟩,
         (R.int31n (R.int31n (R.int31n rnd varNames.length).2 varTypes.length).2 10).2)) ∧
    ((R.int31n (R.int31n (R.int31n rnd varNames.length).2 varTypes.length).2 10).1 ≠ 0 →
      (R.int31n (R.int31n (R.int31n (R.int31n rnd varNames.length).2 varTypes.length).2 10).2 10).1 = 0 →
      genArg R rnd =
        (⟨varNames.getD (R.int31n rnd varNames.length).1 "",
          varTypes.getD (R.int31n (R.int31n rnd varNames.length).2 varTypes.length).1 "" ++
            ("[" ++ toString (R.int31n (R.int31n (R.int31n (R.int31n (R.int31n rnd
              varNames.length).2 varTypes.length).2 10).2 10).2 30).1 ++ "]")⟩,
         (R.int31n (R.int31n (R.int31n (R.int31n (R.int31n rnd
              varNames.length).2 varTypes.length).2 10).2 10).2 30).2)) ∧
    ((R.int31n (R.int31n (R.int31n rnd varNames.length).2 varTypes.length).2 10).1 ≠ 0 →
      (R.int31n (R.int31n (R.int31n (R.int31n rnd varNames.length).2 varTypes.length).2 10).2 10).1 ≠ 0 →
      genArg R rnd =
        (⟨varNames.getD (R.int31n rnd varNames.length).1 "",
          varTypes.getD (R.int31n (R.int31n rnd varNames.length).2 varTypes.length).1 ""⟩,
         (R.int31n (R.int31n (R.int31n (R.int31n rnd varNames.length).2 varTypes.length).2 10).2 10).2)) := by
  refine ⟨fun h => ?_, fun h1 h2 => ?_, fun h1 h2 => ?_⟩
  · simp only [genArg, h, if_true]
  · simp only [genArg, h1, h2, if_true, if_false]
  · simp only [genArg, h1, h2, if_false]

/-- A generated type carries at most one array suffix. -/
theorem genArg_brackets (R : Rand) (rnd : R.Gen) : brackets (genArg R rnd).1.typ ≤ 1 := by
  have hbase : brackets (varTypes.getD
      (R.int31n (R.int31n rnd varNames.length).2 varTypes.length).1 "") = 0 :=
    brackets_varTypes _ (getD_mem_of_lt _ _ _ (R.int31n_lt _ _ (by decide)))
  obtain ⟨h1, h2, h3⟩ := genArg_cases R rnd
  by_cases hd : (R.int31n (R.int31n (R.int31n rnd varNames.length).2 varTypes.length).2 10).1 = 0
  · rw [h1 hd]
    show brackets (_ ++ "[]") ≤ 1
    rw [brackets_append, hbase]
    decide
  · by_cases hf : (R.int31n (R.int31n (R.int31n (R.int31n rnd
        varNames.length).2 varTypes.length).2 10).2 10).1 = 0
    · rw [h2 hd hf]
      show brackets (_ ++ ("[" ++ toString _ ++ "]")) ≤ 1
      rw [brackets_append, hbase, brackets_fixed _ (R.int31n_lt _ _ (by decide))]
    · rw [h3 hd hf]
      show brackets _ ≤ 1
      rw [hbase]
      exact Nat.zero_le 1

theorem genArgs_brackets (R : Rand) (i : Nat) :
    ∀ (rnd : R.Gen) (acc : List args), (∀ a ∈ acc, brackets a.typ ≤ 1) →
      ∀ a ∈ (genArgs R i rnd acc).1, brackets a.typ ≤ 1 := by
  induction i with
  | zero =>
    intro rnd acc hacc a ha
    exact hacc a ha
  | succ i ih =>
    intro rnd acc hacc a ha
    simp only [genArgs] at ha
    refine ih _ _ ?_ a ha
    intro b hb
    rcases List.mem_append.mp hb with hb | hb
    · exact hacc b hb
    · rw [List.mem_singleton.mp hb]
      exact genArg_brackets R rnd

theorem genCandidate_brackets (R : Rand) (rnd : R.Gen) :
    ∀ a ∈ (genCandidate R rnd).1, brackets a.typ ≤ 1 := by
  intro a ha
  exact genArgs_brackets R _ _ [] (fun b hb => absurd hb (List.not_mem_nil b)) a ha

/-! ## Lemmas on the driver -/

theorem candidatesBuilt_append (a b : List Event) :
    candidatesBuilt (a ++ b) = candidatesBuilt a ++ candidatesBuilt b := by
  induction a with
  | nil => rfl
  | cons e rest ih => cases e <;> simp [candidatesBuilt, ih]

theorem Outcome.after_result {α : Type} (pre : List Event) (o : Outcome α) :
    (o.after pre).result = o.result := rfl

theorem candidatesBuilt_after {α : Type} (name : String) (sm payable : Option String)
    (arg : List args) (tr : List Event) (o : Outcome α) :
    candidatesBuilt (o.after (Event.candidate name sm payable arg :: tr)).trace
      = ((name, sm, payable), arg) :: (candidatesBuilt tr ++ candidatesBuilt o.trace) := by
  show candidatesBuilt (Event.candidate name sm payable arg :: (tr ++ o.trace)) = _
  simp [candidatesBuilt, candidatesBuilt_append]

theorem candidatesBuilt_unpackPack (c : Codec) (abi : c.ABI) (method : String)
    (inputType : Slice GoVal) (input : Bytes) :
    candidatesBuilt (unpackPack c abi method inputType input).trace = [] := by
  unfold unpackPack
  cases c.unpack abi method input with
  | error e => rfl
  | ok v =>
    cases c.pack abi method [GoVal.byteSlice input] with
    | error e => rfl
    | ok output => by_cases h : input = output <;> simp [h, candidatesBuilt]

theorem candidatesBuilt_packUnpack (c : Codec) (L : Lib) (abi : c.ABI) (method : String)
    (input : Slice GoVal) : candidatesBuilt (packUnpack c L abi method input).trace = [] := by
  unfold packUnpack
  cases c.pack abi method [GoVal.ofSlice input] with
  | error e => rfl
  | ok packed =>
    cases hu : c.unpack abi method packed with
    | error e => simp [hu, candidatesBuilt]
    | ok out => cases hd : L.deepEqual input out <;> simp [hu, hd, candidatesBuilt]

theorem candidatesBuilt_fillStruct (L : Lib) (structs : Slice GoVal) (data : Bytes) :
    candidatesBuilt (fillStruct L structs data).trace = [] := by
  unfold fillStruct
  split
  · cases L.fuzz data structs.elems <;> rfl
  · rfl

/-- How the rest of the loop body ends, by what its calls return. -/
theorem runCandidate_ran_iff (c : Codec) (L : Lib) (input : Bytes) (name : String)
    (sm payable : Option String) (arg : List args) (b cc : Bool) :
    (runCandidate c L input name sm payable arg).result = .done (.ran b cc) ↔
      ∃ abi structs filled, createABI c name sm payable arg = .ok abi ∧
        createStructs c arg = .done structs ∧
        (unpackPack c abi name structs input).result = .done b ∧
        (fillStruct L structs input).result = .done filled ∧
        (packUnpack c L abi name filled).result = .done cc := by
  unfold runCandidate
  cases h1 : createABI c name sm payable arg with
  | error e => simp
  | ok abi =>
    cases h2 : createStructs c arg with
    | fatal p => simp
    | done structs =>
      cases h3 : (unpackPack c abi name structs input).result with
      | fatal p => simp [h3]
      | done b1 =>
        cases h4 : (fillStruct L structs input).result with
        | fatal p => simp [h3, h4]
        | done filled =>
          cases h5 : (packUnpack c L abi name filled).result with
          | fatal p => simp [h3, h4, h5]
          | done c1 =>
            simp only [h3, h4, h5]
            constructor
            · intro h
              injection h with h
              injection h with hb hc
              exact ⟨abi, structs, filled, rfl, rfl, by rw [h3, hb], h4, by rw [h5, hc]⟩
            · rintro ⟨abi1, structs1, filled1, e1, e2, e3, e4, e5⟩
              injection e1 with e1
              injection e2 with e2
              subst e1
              subst e2
              rw [h4] at e4
              injection e4 with e4
              subst e4
              rw [h3] at e3
              rw [h5] at e5
              injection e3 with e3
              injection e5 with e5
              rw [e3, e5]

theorem candidatesBuilt_runCandidate (c : Codec) (L : Lib) (input : Bytes) (name : String)
    (sm payable : Option String) (arg : List args) :
    candidatesBuilt (runCandidate c L input name sm payable arg).trace = [] := by
  unfold runCandidate
  cases createABI c name sm payable arg with
  | error e => rfl
  | ok abi =>
    cases createStructs c arg with
    | fatal p => rfl
    | done structs =>
      cases h3 : (unpackPack c abi name structs input).result with
      | fatal p => simp [h3, candidatesBuilt_unpackPack]
      | done b1 =>
        cases h4 : (fillStruct L structs input).result with
        | fatal p =>
          simp [h3, h4, candidatesBuilt_append, candidatesBuilt_unpackPack,
            candidatesBuilt_fillStruct]
        | done filled =>
          cases h5 : (packUnpack c L abi name filled).result <;>
          simp [h3, h4, h5, candidatesBuilt_append, candidatesBuilt_unpackPack,
            candidatesBuilt_fillStruct, candidatesBuilt_packUnpack]

/-- A run of the loops that does not abort ran every candidate to a verdict, and its flag
is the disjunction of the start flag and the candidates' verdicts. -/
theorem runCells_done (c : Codec) (L : Lib) (R : Rand) (input : Bytes) (cs : List Cell) :
    ∀ (rnd : R.Gen) (good g : Bool), (runCells c L R input cs rnd good).result = .done g →
      (∀ x ∈ candidates R cs rnd, ∃ v,
        (runCandidate c L input x.1.1 x.1.2.1 x.1.2.2 x.2).result = .done v) ∧
      g = (good || (candidates R cs rnd).any (conclusive c L input)) := by
  induction cs with
  | nil =>
    intro rnd good g h
    simp only [runCells] at h
    injection h with h
    simp [candidates, h]
  | cons cell rest ih =>
    intro rnd good g h
    obtain ⟨name, sm, payable⟩ := cell
    simp only [runCells] at h
    cases hv : (runCandidate c L input name sm payable (genCandidate R rnd).1).result with
    | fatal p =>
      rw [hv] at h
      simp at h
    | done v =>
      rw [hv] at h
      cases v with
      | skipped =>
        simp only [Outcome.after] at h
        obtain ⟨hall, hg⟩ := ih _ _ _ h
        refine ⟨?_, ?_⟩
        · intro x hx
          simp only [candidates, List.mem_cons] at hx
          rcases hx with hx | hx
          · exact ⟨_, by rw [hx]; exact hv⟩
          · exact hall x hx
        · simp [candidates, conclusive, hv, hg]
      | ran b cc =>
        simp only [Outcome.after] at h
        obtain ⟨hall, hg⟩ := ih _ _ _ h
        refine ⟨?_, ?_⟩
        · intro x hx
          simp only [candidates, List.mem_cons] at hx
          rcases hx with hx | hx
          · exact ⟨_, by rw [hx]; exact hv⟩
          · exact hall x hx
        · simp [candidates, conclusive, hv, hg, Bool.or_assoc]

/-- The candidates a run of the loops built are the first ones of the seed-determined
sequence, and all of it when the run does not abort. -/
theorem runCells_built (c : Codec) (L : Lib) (R : Rand) (input : Bytes) (cs : List Cell) :
    ∀ (rnd : R.Gen) (good : Bool),
      candidatesBuilt (runCells c L R input cs rnd good).trace <+: candidates R cs rnd ∧
      (∀ g, (runCells c L R input cs rnd good).result = .done g →
        candidatesBuilt (runCells c L R input cs rnd good).trace = candidates R cs rnd) := by
  induction cs with
  | nil =>
    intro rnd good
    simp [runCells, candidates, candidatesBuilt]
  | cons cell rest ih =>
    intro rnd good
    obtain ⟨name, sm, payable⟩ := cell
    have hrc := candidatesBuilt_runCandidate c L input name sm payable (genCandidate R rnd).1
    simp only [runCells]
    cases hv : (runCandidate c L input name sm payable (genCandidate R rnd).1).result with
    | fatal p =>
      simp [candidatesBuilt, candidates, hrc]
    | done v =>
      cases v with
      | skipped =>
        obtain ⟨h1, h2⟩ := ih (genCandidate R rnd).2 good
        rw [candidatesBuilt_after, hrc, List.nil_append]
        simp only [candidates, Outcome.after_result]
        exact ⟨(List.prefix_cons_inj _).mpr h1, fun g hg => by rw [h2 g hg]⟩
      | ran b cc =>
        obtain ⟨h1, h2⟩ := ih (genCandidate R rnd).2 (good || b || cc)
        rw [candidatesBuilt_after, hrc, List.nil_append]
        simp only [candidates, Outcome.after_result]
        exact ⟨(List.prefix_cons_inj _).mpr h1, fun g hg => by rw [h2 g hg]⟩

theorem seed_cons (b : Byte) (t : Bytes) : seed (b :: t) = Int.ofNat b.val := by
  simp [seed]

theorem runFuzzer_rnd (R : Rand) (input : Bytes) :
    (if h : input.length > 0 then R.newSource (Int.ofNat (input[0]).val)
      else R.newSource 123456) = R.newSource (seed input) := by
  unfold seed
  split <;> rfl

theorem runFuzzer_trace (c : Codec) (L : Lib) (R : Rand) (input : Bytes) :
    (runFuzzer c L R input).trace
      = (runCells c L R input cells (R.newSource (seed input)) false).trace := by
  unfold runFuzzer
  simp only [runFuzzer_rnd]
  cases (runCells c L R input cells (R.newSource (seed input)) false).result <;> rfl

theorem runFuzzer_done (c : Codec) (L : Lib) (R : Rand) (input : Bytes) (r : Int)
    (h : (runFuzzer c L R input).result = .done r) :
    ∃ g, (runCells c L R input cells (R.newSource (seed input)) false).result = .done g ∧
      r = if g = true then 1 else 0 := by
  unfold runFuzzer at h
  simp only [runFuzzer_rnd] at h
  cases hr : (runCells c L R input cells (R.newSource (seed input)) false).result with
  | fatal p =>
    rw [hr] at h
    simp at h
  | done g =>
    rw [hr] at h
    simp only at h
    injection h with h
    exact ⟨g, rfl, h.symm⟩

/-- A candidate that parsed, got its placeholders and came through `fillStruct`, in a cell
that ended with a verdict: both oracle directions returned, and the verdict holds their
results. -/
theorem runCandidate_of_parsed (c : Codec) (L : Lib) (input : Bytes) (name : String)
    (sm payable : Option String) (arg : List args) (abi : c.ABI) (structs filled : Slice GoVal)
    (v : Verdict) (h1 : createABI c name sm payable arg = .ok abi)
    (h2 : createStructs c arg = .done structs)
    (h4 : (fillStruct L structs input).result = .done filled)
    (hv : (runCandidate c L input name sm payable arg).result = .done v) :
    ∃ b cc, (unpackPack c abi name structs input).result = .done b ∧
      (packUnpack c L abi name filled).result = .done cc ∧ v = .ran b cc := by
  unfold runCandidate at hv
  simp only [h1, h2] at hv
  cases h3 : (unpackPack c abi name structs input).result with
  | fatal p =>
    rw [h3] at hv
    simp at hv
  | done b =>
    rw [h3] at hv
    simp only [h4] at hv
    cases h5 : (packUnpack c L abi name filled).result with
    | fatal p =>
      rw [h5] at hv
      simp at hv
    | done cc =>
      rw [h5] at hv
      injection hv with hv
      exact ⟨b, cc, rfl, rfl, hv.symm⟩

theorem createStructsLoop_rejected (c : Codec) (arg : List args)
    (h : ∃ a ∈ arg, ∃ e, c.newType a.typ = .error e) :
    ∃ e, createStructsLoop c arg = .fatal (.err e) := by
  induction arg with
  | nil =>
    obtain ⟨a, ha, _⟩ := h
    exact absurd ha (List.not_mem_nil a)
  | cons x rest ih =>
    unfold createStructsLoop
    cases hx : c.newType x.typ with
    | error e => exact ⟨e, rfl⟩
    | ok t =>
      obtain ⟨a, ha, e, he⟩ := h
      rcases List.mem_cons.mp ha with hax | hrest
      · rw [hax, hx] at he
        cases he
      · obtain ⟨e1, h1⟩ := ih ⟨a, hrest, e, he⟩
        exact ⟨e1, by simp only [h1]⟩

/-! ## The round-trip oracle -/

/-- C1 (the code departs from the claim). Under a codec double that is a faithful inverse
pair for `foo(uint8 a)`, decoding 32 zero bytes succeeds with the value set `[uint8 0]`,
whose re-encoding is the input. `unpackPack` hands `Pack` the raw input buffer as its one
argument, neither the decoded values spread out nor the decoded set, and aborts. For every
codec, whatever `Unpack` yields, the argument list of the `Pack` call is the input buffer. -/
theorem unpackPack_packs_raw_input :
    decodeUint8 (List.replicate 32 0) = .ok (.make [GoVal.datum "uint8" [0]]) ∧
    encodeUint8 [GoVal.datum "uint8" [0]] = .ok (List.replicate 32 0) ∧
    (unpackPack (stubCodec (fun _ => true) decodeUint8 encodeUint8) "" "foo"
        (.make [GoVal.reflectValue "uint8"]) (List.replicate 32 0)).trace
      = [Event.unpack "foo" (List.replicate 32 0),
         Event.pack "foo" [GoVal.byteSlice (List.replicate 32 0)]] ∧
    [GoVal.byteSlice (List.replicate 32 0)] ≠ [GoVal.datum "uint8" [0]] ∧
    [GoVal.byteSlice (List.replicate 32 0)] ≠ [GoVal.ofSlice (.make [GoVal.datum "uint8" [0]])] ∧
    (unpackPack (stubCodec (fun _ => true) decodeUint8 encodeUint8) "" "foo"
        (.make [GoVal.reflectValue "uint8"]) (List.replicate 32 0)).result
      = .fatal (.err "abi: cannot use argument as type uint8") ∧
    (∀ (c : Codec) (abi : c.ABI) (method : String) (inputType : Slice GoVal) (input : Bytes)
        (v : Slice GoVal), c.unpack abi method input = .ok v →
      (unpackPack c abi method inputType input).trace
        = [Event.unpack method input, Event.pack method [GoVal.byteSlice input]]) := by
  refine ⟨rfl, rfl, rfl, ?_, ?_, rfl, ?_⟩
  · intro h
    cases h
  · intro h
    cases h
  · intro c abi method inputType input v hv
    unfold unpackPack
    rw [hv]
    cases c.pack abi method [GoVal.byteSlice input] with
    | error e => rfl
    | ok output => by_cases h : input = output <;> simp [h]

/-- The control flow of `unpackPack` over the calls it makes: it returns false exactly when
`Unpack` of the input fails; when `Unpack` succeeds, it panics exactly when
`Pack(method, input)`, the call on the raw input buffer, fails or yields bytes other than
the input, and returns true otherwise. The decoded values take no part. -/
theorem unpackPack_outcome (c : Codec) (abi : c.ABI) (method : String)
    (inputType : Slice GoVal) (input : Bytes) :
    ((unpackPack c abi method inputType input).result = .done false ↔
      ∃ e, c.unpack abi method input = .error e) ∧
    (∀ v, c.unpack abi method input = .ok v →
      ((∃ p, (unpackPack c abi method inputType input).result = .fatal p) ↔
        ((∃ e, c.pack abi method [GoVal.byteSlice input] = .error e) ∨
          ∃ output, c.pack abi method [GoVal.byteSlice input] = .ok output ∧ output ≠ input)) ∧
      ((¬ ∃ p, (unpackPack c abi method inputType input).result = .fatal p) →
        (unpackPack c abi method inputType input).result = .done true)) := by
  unfold unpackPack
  cases hu : c.unpack abi method input with
  | error e => simp
  | ok v =>
    cases hp : c.pack abi method [GoVal.byteSlice input] with
    | error e => simp
    | ok output =>
      by_cases hio : input = output
      · subst hio
        simp
      · have hoi : output ≠ input := fun h => hio h.symm
        simp [hio, hoi]

/-- C2 (the code departs from the claim). The abort of `unpackPack` does not follow the
re-encode of the decoded values. Under the `uint8` double the word ending in 5 decodes to
`[uint8 5]`, whose re-encode succeeds and gives back the input, and `unpackPack` panics
where the claim has it return true. Under the echo double `[7, 7]` decodes to the empty
value set, whose re-encode (spread out or boxed) is the empty payload and differs from the
input, and `unpackPack` returns true where the claim has it panic. -/
theorem unpackPack_abort_ignores_decoded :
    decodeUint8 (List.replicate 31 0 ++ [5]) = .ok (.make [GoVal.datum "uint8" [5]]) ∧
    encodeUint8 [GoVal.datum "uint8" [5]] = .ok (List.replicate 31 0 ++ [5]) ∧
    (unpackPack (stubCodec (fun _ => true) decodeUint8 encodeUint8) "" "foo"
        (.make [GoVal.reflectValue "uint8"]) (List.replicate 31 0 ++ [5])).result
      = .fatal (.err "abi: cannot use argument as type uint8") ∧
    decodeEven [7, 7] = .ok (.make []) ∧
    encodeEcho [] = .ok [] ∧
    encodeEcho [GoVal.ofSlice (.make [])] = .ok [] ∧
    ([] : Bytes) ≠ [7, 7] ∧
    (unpackPack (stubCodec (fun _ => true) decodeEven encodeEcho) "" "foo"
        (.make []) [7, 7]).result = .done true := by
  refine ⟨rfl, rfl, rfl, rfl, rfl, rfl, ?_, rfl⟩
  intro h
  cases h

/-- C3. `packUnpack` returns false exactly when `Pack` of the value set fails. When
`Pack` succeeds with `packed`, it decodes `packed` into a fresh value set and panics exactly
when that `Unpack` fails or the decoded set is not deep-equal to the original, and returns
true otherwise. -/
theorem packUnpack_outcome (c : Codec) (L : Lib) (abi : c.ABI) (method : String)
    (input : Slice GoVal) :
    ((packUnpack c L abi method input).result = .done false ↔
      ∃ e, c.pack abi method [GoVal.ofSlice input] = .error e) ∧
    (∀ packed, c.pack abi method [GoVal.ofSlice input] = .ok packed →
      (packUnpack c L abi method input).trace
        = [Event.pack method [GoVal.ofSlice input], Event.unpack method packed] ∧
      ((∃ p, (packUnpack c L abi method input).result = .fatal p) ↔
        ((∃ e, c.unpack abi method packed = .error e) ∨
          ∃ out, c.unpack abi method packed = .ok out ∧ L.deepEqual input out = false)) ∧
      ((¬ ∃ p, (packUnpack c L abi method input).result = .fatal p) →
        (packUnpack c L abi method input).result = .done true)) := by
  refine ⟨?_, ?_⟩
  · unfold packUnpack
    cases hp : c.pack abi method [GoVal.ofSlice input] with
    | error e => simp
    | ok packed =>
      cases hu : c.unpack abi method packed with
      | error e => simp [hu]
      | ok out => cases hd : L.deepEqual input out <;> simp [hu, hd]
  · intro packed hp
    unfold packUnpack
    rw [hp]
    cases hu : c.unpack abi method packed with
    | error e => simp [hu]
    | ok out => cases hd : L.deepEqual input out <;> simp [hu, hd]

/-- A run of C3: the empty value set is encoded, decoded again and found equal. -/
theorem packUnpack_outcome_witness :
    (packUnpack (stubCodec (fun _ => true) decodeEven encodeLossy) stubLib "" "foo"
        (.make [])).trace
      = [Event.pack "foo" [GoVal.ofSlice (.make [])], Event.unpack "foo" []] ∧
    (packUnpack (stubCodec (fun _ => true) decodeEven encodeLossy) stubLib "" "foo"
        (.make [])).result = .done true :=
  ⟨((packUnpack_outcome (stubCodec (fun _ => true) decodeEven encodeLossy) stubLib "" "foo"
      (.make [])).2 [] rfl).1, rfl⟩

/-! ## The fuzz driver -/

/-- C4. When the driver (`Fuzz`, which is `runFuzzer`) does not abort, its result is 1 or 0,
and it is 1 exactly when for some cell of the cross product the candidate parsed and
`unpackPack` or `packUnpack` returned true. -/
theorem Fuzz_result (c : Codec) (L : Lib) (R : Rand) (input : Bytes) (r : Int)
    (h : (Fuzz c L R input).result = .done r) :
    Fuzz c L R input = runFuzzer c L R input ∧
    (r = 1 ∨ r = 0) ∧
    (r = 1 ↔ ∃ x ∈ candidates R cells (R.newSource (seed input)), ∃ abi structs filled,
      createABI c x.1.1 x.1.2.1 x.1.2.2 x.2 = .ok abi ∧
      createStructs c x.2 = .done structs ∧
      (fillStruct L structs input).result = .done filled ∧
      ((unpackPack c abi x.1.1 structs input).result = .done true ∨
        (packUnpack c L abi x.1.1 filled).result = .done true)) := by
  obtain ⟨g, hg, hr⟩ := runFuzzer_done c L R input r h
  obtain ⟨hall, hgood⟩ := runCells_done c L R input cells _ _ _ hg
  rw [Bool.false_or] at hgood
  refine ⟨rfl, ?_, ?_⟩
  · cases g
    · right
      simpa using hr
    · left
      simpa using hr
  · constructor
    · intro hr1
      have hgt : g = true := by
        cases g
        · rw [hr1] at hr
          simp at hr
        · rfl
      rw [hgt] at hgood
      obtain ⟨x, hx, hcx⟩ := List.any_eq_true.mp hgood.symm
      unfold conclusive at hcx
      cases hres : (runCandidate c L input x.1.1 x.1.2.1 x.1.2.2 x.2).result with
      | fatal p =>
        rw [hres] at hcx
        simp at hcx
      | done v =>
        rw [hres] at hcx
        cases v with
        | skipped => simp at hcx
        | ran b cc =>
          simp only [Bool.or_eq_true] at hcx
          obtain ⟨abi, structs, filled, e1, e2, e3, e4, e5⟩ :=
            (runCandidate_ran_iff c L input _ _ _ _ b cc).mp hres
          refine ⟨x, hx, abi, structs, filled, e1, e2, e4, ?_⟩
          rcases hcx with hb | hc
          · left
            rw [e3, hb]
          · right
            rw [e5, hc]
    · rintro ⟨x, hx, abi, structs, filled, e1, e2, e4, hor⟩
      obtain ⟨v, hv⟩ := hall x hx
      obtain ⟨b, cc, e3, e5, hvb⟩ := runCandidate_of_parsed c L input _ _ _ _ abi structs filled v
        e1 e2 e4 hv
      have hcx : conclusive c L input x = true := by
        unfold conclusive
        rw [hv, hvb]
        simp only [Bool.or_eq_true]
        rcases hor with hb | hc
        · rw [e3] at hb
          injection hb with hb
          exact Or.inl hb
        · rw [e5] at hc
          injection hc with hc
          exact Or.inr hc
      have hany : (candidates R cells (R.newSource (seed input))).any (conclusive c L input)
          = true := List.any_eq_true.mpr ⟨x, hx, hcx⟩
      rw [hany] at hgood
      rw [hr, hgood]
      rfl

/-- A run of C4 that does not abort and returns 1: the input `[7]` does not decode, and
in some cell the candidate parses and one of the two directions returns true. -/
theorem Fuzz_result_witness :
    (Fuzz (stubCodec (fun _ => true) decodeEven encodeLossy) stubLib
        (scriptRand exampleScript) [7]).result = .done 1 ∧
    ∃ x ∈ candidates (scriptRand exampleScript) cells
        ((scriptRand exampleScript).newSource (seed [7])),
      ∃ abi structs filled,
        createABI (stubCodec (fun _ => true) decodeEven encodeLossy) x.1.1 x.1.2.1 x.1.2.2 x.2
          = .ok abi ∧
        createStructs (stubCodec (fun _ => true) decodeEven encodeLossy) x.2 = .done structs ∧
        (fillStruct stubLib structs [7]).result = .done filled ∧
        ((unpackPack (stubCodec (fun _ => true) decodeEven encodeLossy) abi x.1.1 structs
            [7]).result = .done true ∨
          (packUnpack (stubCodec (fun _ => true) decodeEven encodeLossy) stubLib abi x.1.1
            filled).result = .done true) :=
  ⟨rfl, (Fuzz_result (stubCodec (fun _ => true) decodeEven encodeLossy) stubLib
    (scriptRand exampleScript) [7] 1 rfl).2.2.mp rfl⟩

/-- C5 (counterexample). The first candidate is `a byte32, b bool`. Its text parses (the
two name/type pairs share one object, and the parser reads the type `bool`), `NewType`
rejects `byte32`, and `createStructs` panics: the driver aborts at this cell instead of
skipping it. -/
theorem runFuzzer_aborts_on_rejected_type :
    createABI (stubCodec (fun t => t != "byte32") decodeEven encodeLossy) "" none none
        [⟨"a", "byte32"⟩, ⟨"b", "bool"⟩]
      = .ok (createABISig "" none none [⟨"a", "byte32"⟩, ⟨"b", "bool"⟩]) ∧
    (stubCodec (fun t => t != "byte32") decodeEven encodeLossy).newType "byte32"
      = .error "unsupported arg type: byte32" ∧
    runFuzzer (stubCodec (fun t => t != "byte32") decodeEven encodeLossy) stubLib
        (scriptRand byte32Script) []
      = ⟨[Event.candidate "" none none [⟨"a", "byte32"⟩, ⟨"b", "bool"⟩]],
         .fatal (.err "unsupported arg type: byte32")⟩ := by
  refine ⟨rfl, rfl, rfl⟩

/-- C5 (amended). A candidate whose rendered signature fails to parse is skipped silently:
the cell makes no oracle call and no abort, and the loops go on with the next cell, the
flag unchanged. A candidate that parses while `NewType` rejects one of its type strings
is not skipped: `createStructs` panics before any oracle call, and the run ends there. -/
theorem runCells_skips_unparsed (c : Codec) (L : Lib) (R : Rand) (input : Bytes)
    (name : String) (sm payable : Option String) (rest : List Cell) (rnd : R.Gen)
    (good : Bool) :
    ((∃ e, createABI c name sm payable (genCandidate R rnd).1 = .error e) →
      runCandidate c L input name sm payable (genCandidate R rnd).1 = ⟨[], .done .skipped⟩ ∧
      runCells c L R input ((name, sm, payable) :: rest) rnd good
        = (runCells c L R input rest (genCandidate R rnd).2 good).after
            [Event.candidate name sm payable (genCandidate R rnd).1]) ∧
    ((∃ abi, createABI c name sm payable (genCandidate R rnd).1 = .ok abi) →
      (∃ a ∈ (genCandidate R rnd).1, ∃ e, c.newType a.typ = .error e) →
      ∃ e, runCandidate c L input name sm payable (genCandidate R rnd).1
          = ⟨[], .fatal (.err e)⟩ ∧
        runCells c L R input ((name, sm, payable) :: rest) rnd good
          = ⟨[Event.candidate name sm payable (genCandidate R rnd).1], .fatal (.err e)⟩) := by
  constructor
  · rintro ⟨e, he⟩
    have hrc : runCandidate c L input name sm payable (genCandidate R rnd).1
        = ⟨[], .done .skipped⟩ := by
      unfold runCandidate
      rw [he]
    refine ⟨hrc, ?_⟩
    simp only [runCells, hrc]
  · rintro ⟨abi, habi⟩ hrej
    obtain ⟨e, he⟩ := createStructsLoop_rejected c _ hrej
    have hrc : runCandidate c L input name sm payable (genCandidate R rnd).1
        = ⟨[], .fatal (.err e)⟩ := by
      unfold runCandidate
      rw [habi]
      simp only [createStructs, he]
    refine ⟨e, hrc, ?_⟩
    simp only [runCells, hrc]

/-- A run of C5 (amended): the candidate `a byte32` does not parse and is skipped; the run
goes on to the next cells and ends without abort. -/
theorem runCells_skips_unparsed_witness :
    runCandidate (stubCodec (fun t => t != "byte32") decodeEven encodeLossy) stubLib [7]
        "" none none [⟨"a", "byte32"⟩] = ⟨[], .done .skipped⟩ ∧
    runCells (stubCodec (fun t => t != "byte32") decodeEven encodeLossy) stubLib
        (scriptRand byte32Script) [7] [("", none, none), ("n", none, none)] [1, 0, 103, 1, 1] false
      = (runCells (stubCodec (fun t => t != "byte32") decodeEven encodeLossy) stubLib
          (scriptRand byte32Script) [7] [("n", none, none)] [] false).after
            [Event.candidate "" none none [⟨"a", "byte32"⟩]] :=
  (runCells_skips_unparsed (stubCodec (fun t => t != "byte32") decodeEven encodeLossy) stubLib
    (scriptRand byte32Script) [7] "" none none [("n", none, none)] [1, 0, 103, 1, 1] false).1
    ⟨"unsupported arg type", rfl⟩

/-- C6 (counterexample). The inputs `[7, 7]` and `[7]` share their first byte. On `[7, 7]`
the first cell aborts (the input decodes and the re-encoding differs), so the run builds one
candidate; on `[7]` nothing aborts and the run builds all 120. -/
theorem runFuzzer_built_depends_on_codec :
    seed [7, 7] = seed [7] ∧
    (candidatesBuilt (runFuzzer (stubCodec (fun _ => true) decodeEven encodeLossy) stubLib
      (scriptRand exampleScript) [7, 7]).trace).length = 1 ∧
    (candidatesBuilt (runFuzzer (stubCodec (fun _ => true) decodeEven encodeLossy) stubLib
      (scriptRand exampleScript) [7]).trace).length = 120 ∧
    candidatesBuilt (runFuzzer (stubCodec (fun _ => true) decodeEven encodeLossy) stubLib
      (scriptRand exampleScript) [7, 7]).trace ≠
    candidatesBuilt (runFuzzer (stubCodec (fun _ => true) decodeEven encodeLossy) stubLib
      (scriptRand exampleScript) [7]).trace := by
  have h1 : (candidatesBuilt (runFuzzer (stubCodec (fun _ => true) decodeEven encodeLossy)
      stubLib (scriptRand exampleScript) [7, 7]).trace).length = 1 := rfl
  have h2 : (candidatesBuilt (runFuzzer (stubCodec (fun _ => true) decodeEven encodeLossy)
      stubLib (scriptRand exampleScript) [7]).trace).length = 120 := rfl
  refine ⟨rfl, h1, h2, ?_⟩
  intro h
  rw [h, h2] at h1
  exact absurd h1 (by decide)

/-- C6 (amended). The generator is seeded with the first byte of the input, or with 123456
when the input is empty. The candidates a run builds are the first ones of the sequence that
the seed alone determines, whatever the parser, `Unpack`, `Pack` and the fuzzer return, and
all of it when the run does not abort. So two inputs that are both empty or share the first
byte yield the same seed, and the same candidate sequence when neither run aborts. -/
theorem runFuzzer_candidates_of_seed (c1 c2 : Codec) (L1 L2 : Lib) (R : Rand)
    (i1 i2 : Bytes)
    (h : (i1 = [] ∧ i2 = []) ∨ ∃ b t1 t2, i1 = b :: t1 ∧ i2 = b :: t2) :
    seed [] = 123456 ∧ (∀ (b : Byte) (t : Bytes), seed (b :: t) = Int.ofNat b.val) ∧
    seed i1 = seed i2 ∧
    candidatesBuilt (runFuzzer c1 L1 R i1).trace <+: candidates R cells (R.newSource (seed i1)) ∧
    candidatesBuilt (runFuzzer c2 L2 R i2).trace <+: candidates R cells (R.newSource (seed i1)) ∧
    ((∃ r, (runFuzzer c1 L1 R i1).result = .done r) →
      candidatesBuilt (runFuzzer c1 L1 R i1).trace = candidates R cells (R.newSource (seed i1))) ∧
    ((∃ r1, (runFuzzer c1 L1 R i1).result = .done r1) →
      (∃ r2, (runFuzzer c2 L2 R i2).result = .done r2) →
      candidatesBuilt (runFuzzer c1 L1 R i1).trace
        = candidatesBuilt (runFuzzer c2 L2 R i2).trace) := by
  have hseed : seed i1 = seed i2 := by
    rcases h with ⟨h1, h2⟩ | ⟨b, t1, t2, h1, h2⟩
    · rw [h1, h2]
    · rw [h1, h2, seed_cons, seed_cons]
  have full : ∀ (c : Codec) (L : Lib) (i : Bytes), (∃ r, (runFuzzer c L R i).result = .done r) →
      candidatesBuilt (runFuzzer c L R i).trace = candidates R cells (R.newSource (seed i)) := by
    rintro c L i ⟨r, hr⟩
    obtain ⟨g, hg, _⟩ := runFuzzer_done c L R i r hr
    rw [runFuzzer_trace]
    exact (runCells_built c L R i cells _ _).2 g hg
  refine ⟨rfl, seed_cons, hseed, ?_, ?_, full c1 L1 i1, ?_⟩
  · rw [runFuzzer_trace]
    exact (runCells_built c1 L1 R i1 cells _ _).1
  · rw [runFuzzer_trace, hseed]
    exact (runCells_built c2 L2 R i2 cells _ _).1
  · intro hd1 hd2
    rw [full c1 L1 i1 hd1, full c2 L2 i2 hd2, hseed]

/-- A run of C6 (amended) on two inputs with the first byte 7, under two codec doubles. -/
theorem runFuzzer_candidates_of_seed_witness :
    seed [7, 7] = seed [7] ∧
    candidatesBuilt (runFuzzer (stubCodec (fun _ => true) decodeEven encodeLossy) stubLib
        (scriptRand exampleScript) [7, 7]).trace
      <+: candidates (scriptRand exampleScript) cells ((scriptRand exampleScript).newSource
        (seed [7, 7])) :=
  ⟨(runFuzzer_candidates_of_seed (stubCodec (fun _ => true) decodeEven encodeLossy)
      (stubCodec (fun t => t != "byte32") decodeUint8 encodeUint8) stubLib stubLib
      (scriptRand exampleScript) [7, 7] [7] (Or.inr ⟨7, [7], [], rfl, rfl⟩)).2.2.1,
   (runFuzzer_candidates_of_seed (stubCodec (fun _ => true) decodeEven encodeLossy)
      (stubCodec (fun t => t != "byte32") decodeUint8 encodeUint8) stubLib stubLib
      (scriptRand exampleScript) [7, 7] [7] (Or.inr ⟨7, [7], [], rfl, rfl⟩)).2.2.2.1⟩

/-! ## The value materializer -/

/-- C7 (counterexample). For a signature with no arguments `createStructs` returns the
non-nil zero-length set; on it, with a non-empty input, `fillStruct` invokes the fuzzer. -/
theorem fillStruct_fuzzes_empty_set :
    createStructs (stubCodec (fun _ => true) decodeUint8 encodeUint8) [] = .done (.make []) ∧
    (Slice.make ([] : List GoVal)).len = 0 ∧
    (fillStruct stubLib (.make []) [1]).trace = [Event.fuzz [1] []] := by
  refine ⟨rfl, rfl, rfl⟩

/-- C7 (amended). `fillStruct` makes no call to the fuzzer exactly when the input is empty
or the placeholder set is nil, and then returns the set as it was; on any other set, the
non-nil zero-length one included, it calls the fuzzer once on the set's elements. -/
theorem fillStruct_noop_iff (L : Lib) (structs : Slice GoVal) (data : Bytes) :
    ((fillStruct L structs data).trace = [] ↔ (data = [] ∨ structs = .nil)) ∧
    ((data = [] ∨ structs = .nil) → fillStruct L structs data = ⟨[], .done structs⟩) ∧
    (¬ (data = [] ∨ structs = .nil) →
      (fillStruct L structs data).trace = [Event.fuzz data structs.elems]) := by
  unfold fillStruct
  cases structs with
  | nil => simp [Slice.notNil]
  | make elems =>
    cases data with
    | nil => simp [Slice.notNil]
    | cons b t =>
      cases hf : L.fuzz (b :: t) (Slice.make elems).elems <;> simp [Slice.notNil, hf]

/-- A run of C7 (amended): an empty input leaves a one-placeholder set untouched. -/
theorem fillStruct_noop_witness :
    fillStruct stubLib (.make [GoVal.reflectValue "uint8"]) []
      = ⟨[], .done (.make [GoVal.reflectValue "uint8"])⟩ :=
  (fillStruct_noop_iff stubLib (.make [GoVal.reflectValue "uint8"]) []).2.1 (Or.inl rfl)

/-! ## The signature builder -/

/-- C8 (the code departs from the claim). For two arguments the rendered text holds one
object in `inputs` (and one in `outputs`): the braces are written outside the loop, so both
name/type pairs land in the same object, separated by a comma. -/
theorem createABISig_two_arguments :
    createABISig "f" none none [⟨"a", "bool"⟩, ⟨"b", "uint8"⟩]
      = "[\x7b \"type\" : \"function\", \"name\" : \"f\" , \"inputs\" : [ \x7b\"name\" : \"a\", \"type\" : \"bool\" ,\"name\" : \"b\", \"type\" : \"uint8\" \x7d ], \"outputs\" : [ \x7b\"name\" : \"a\", \"type\" : \"bool\" ,\"name\" : \"b\", \"type\" : \"uint8\" \x7d ]\x7d]" ∧
    (createABISig "f" none none [⟨"a", "bool"⟩, ⟨"b", "uint8"⟩]).toList.count '\x7b' = 3 := by
  refine ⟨by decide, rfl⟩

/-- C9 (counterexample). No generator makes an argument type receive both suffixes: a type
with both would hold two `[`, and a generated type holds at most one. On the script where
the dynamic-array roll is 0 and the next number is 0 as well, the type is `bool[]` and
that next number is left unread: the fixed-array roll is not made. -/
theorem genCandidate_never_both_suffixes :
    (¬ ∃ (R : Rand) (rnd : R.Gen) (a : args) (base : String) (k : Nat),
      a ∈ (genCandidate R rnd).1 ∧
      (a.typ = base ++ "[]" ++ ("[" ++ toString k ++ "]") ∨
        a.typ = base ++ ("[" ++ toString k ++ "]") ++ "[]")) ∧
    genCandidate (scriptRand fun _ => []) [1, 0, 0, 0, 0, 7] = ([⟨"a", "bool[]"⟩], [0, 7]) := by
  refine ⟨?_, rfl⟩
  rintro ⟨R, rnd, a, base, k, ha, h⟩
  have hle := genCandidate_brackets R rnd a ha
  have h2 : 2 ≤ brackets a.typ := by
    rcases h with h | h <;> rw [h]
    · rw [brackets_append, brackets_append, brackets_append, brackets_append]
      have : brackets "[]" = 1 := by decide
      have : brackets "[" = 1 := by decide
      omega
    · rw [brackets_append, brackets_append, brackets_append, brackets_append]
      have : brackets "[]" = 1 := by decide
      have : brackets "[" = 1 := by decide
      omega
  omega

/-- C9 (amended). The base type is drawn from the catalog; the dynamic-array roll is
`Int31n(10) == 0`; the fixed-array roll is made only when the dynamic-array roll failed.
So the type is the base type with `[]` (dynamic roll 0, no further draw), or with `[k]`,
`k < 30` (dynamic roll not 0, fixed roll 0), or bare; it never holds two `[`. -/
theorem genArg_suffix (R : Rand) (rnd : R.Gen) :
    let n := R.int31n rnd varNames.length
    let t := R.int31n n.2 varTypes.length
    let dyn := R.int31n t.2 10
    let fixed := R.int31n dyn.2 10
    let k := R.int31n fixed.2 30
    let argName := varNames.getD n.1 ""
    let base := varTypes.getD t.1 ""
    base ∈ varTypes ∧
    (dyn.1 = 0 → genArg R rnd = (⟨argName, base ++ "[]"⟩, dyn.2)) ∧
    (dyn.1 ≠ 0 → fixed.1 = 0 →
      genArg R rnd = (⟨argName, base ++ ("[" ++ toString k.1 ++ "]")⟩, k.2) ∧ k.1 < 30) ∧
    (dyn.1 ≠ 0 → fixed.1 ≠ 0 → genArg R rnd = (⟨argName, base⟩, fixed.2)) ∧
    brackets (genArg R rnd).1.typ ≤ 1 ∧
    (∀ rnd0 : R.Gen, ∀ a ∈ (genCandidate R rnd0).1, brackets a.typ ≤ 1) := by
  intro n t dyn fixed k argName base
  obtain ⟨h1, h2, h3⟩ := genArg_cases R rnd
  exact ⟨getD_mem_of_lt _ _ _ (R.int31n_lt _ _ (by decide)), h1,
    fun hd hf => ⟨h2 hd hf, R.int31n_lt _ _ (by decide)⟩, h3,
    genArg_brackets R rnd, fun rnd0 => genCandidate_brackets R rnd0⟩

/-- C10 (the code departs from the claim). The catalog holds `uintN` and `intN` for every
`N = 8, 16, ..., 256` and `bytesN` for `N = 1, ..., 31`; it does not hold `bytes32`: its
place is taken by `byte32`. -/
theorem varTypes_lacks_bytes32 :
    ((List.range 32).all fun k =>
      decide ("uint" ++ toString (8 * (k + 1)) ∈ varTypes) &&
      decide ("int" ++ toString (8 * (k + 1)) ∈ varTypes)) = true ∧
    ((List.range 31).all fun k => decide ("bytes" ++ toString (k + 1) ∈ varTypes)) = true ∧
    "bytes32" ∉ varTypes ∧ "byte32" ∈ varTypes := by
  refine ⟨by decide, by decide, by decide, by decide⟩


end Fuzzbuzz
